import Mathlib

/-!
A shallow embedding of the synchronization core of the `md-downloader`
repository: `src/md-downloader.go` (package `md_downloader`, raw-content
download variant, modelled in namespace `MdDownloader`) and the second
source file `src/unnamed/part_000` (package `main`, API/base64 variant
with the `"ERROR"` record sentinel, modelled in namespace `PartZero`).

Strings are modelled by `String`, Go maps by functions `String → Option _`
built by pointwise update, the local filesystem by an explicit `FS`
state, the record ("history") file by an optional parsed JSON value, and
the two network calls (tree listing, per-file content fetch) by explicit
inputs/oracles.  Logging is observational only and is not modelled,
except that the per-file decision taken by the tree loop (download /
ignore / skip-as-current, which the code distinguishes exactly by its
log messages and side effects) is reported as a `Decision` value.
-/

namespace MdSync

/-- Update of a Go `map[string]string`, modelling `m[k] = v`. -/
def mapSet (m : String → Option String) (k v : String) : String → Option String :=
  fun q => if q = k then some v else m q

/-- Update of a Go `map[string][]string`, modelling `m[k] = v`. -/
def mapSetL (m : String → Option (List String)) (k : String) (v : List String) :
    String → Option (List String) :=
  fun q => if q = k then some v else m q

/-- Helper for `splitOnChar`: the accumulator holds the reversed current
segment. -/
def splitOnCharAux (sep : Char) : List Char → List Char → List (List Char)
  | [], acc => [acc.reverse]
  | c :: rest, acc =>
    if c = sep then acc.reverse :: splitOnCharAux sep rest []
    else splitOnCharAux sep rest (c :: acc)

/-- Go `strings.Split(s, sep)` for a one-character separator (also the
behaviour of `filepath` path-component splitting used below): the empty
string yields `[""]`, and empty segments are kept. -/
def splitOnChar (s : String) (sep : Char) : List String :=
  (splitOnCharAux sep s.data []).map String.mk

namespace Filepath

/-- Helper for `Ext`: walks the reversed character list of the path,
accumulating characters until the last dot of the final path element is
found; reaching a separator or the start of the string first means the
final element has no extension. -/
def extRevAux : List Char → List Char → List Char
  | _, [] => []
  | acc, c :: rest =>
    if c = '/' then []
    else if c = '.' then c :: acc
    else extRevAux (c :: acc) rest

/-- Go `filepath.Ext`: the suffix of the last path element beginning at
its final dot; empty when the last element has no dot. -/
def Ext (p : String) : String :=
  String.mk (extRevAux [] p.data.reverse)

/-- Helper for `Base`: strips trailing separators (working on the
reversed character list). -/
def dropTrailingSep : List Char → List Char
  | [] => []
  | c :: rest => if c = '/' then dropTrailingSep rest else c :: rest

/-- Helper for `Base`: the reversed last path element. -/
def takeToSep : List Char → List Char
  | [] => []
  | c :: rest => if c = '/' then [] else c :: takeToSep rest

/-- Go `filepath.Base`: the last element of the path after removing
trailing separators; "." for the empty path, "/" when the path is all
separators. -/
def Base (p : String) : String :=
  if p = "" then "."
  else
    let r := dropTrailingSep p.data.reverse
    if r = [] then "/"
    else String.mk (takeToSep r).reverse

/-- Go `filepath.Join` restricted to two components.  `filepath.Join`
additionally runs `Clean`; on the separator-normal, dot-free paths
arising here `Clean` is the identity, so it is omitted. -/
def Join (a b : String) : String :=
  if a = "" then b else if b = "" then a else a ++ "/" ++ b

/-- Helper for `Dir`: on the reversed character list, the part that
remains after discarding everything up to and including the first
separator; `none` when there is no separator. -/
def dropToSep : List Char → Option (List Char)
  | [] => none
  | c :: rest => if c = '/' then some rest else dropToSep rest

/-- Go `filepath.Dir` (modulo `Clean`, identity on the paths arising
here): everything before the last separator, "." when there is none. -/
def Dir (p : String) : String :=
  match dropToSep p.data.reverse with
  | none => "."
  | some r => String.mk r.reverse

end Filepath

/-- The local filesystem state: the set of existing directories and the
contents of existing regular files.  The working directory itself always
exists (`Filepath.Dir` of a separator-free path is "."). -/
structure FS where
  dirs : List String
  files : String → Option String

def FS.empty : FS := ⟨[], fun _ => none⟩

/-- All non-empty component prefixes of a component list, joined with
"/": the directories `os.MkdirAll` brings into existence. -/
def prefixJoins : List String → List String
  | [] => []
  | c :: rest => c :: (prefixJoins rest).map (fun s => c ++ "/" ++ s)

/-- Go `os.MkdirAll`: creates the directory and every ancestor of it. -/
def mkdirAll (fs : FS) (d : String) : FS :=
  { fs with dirs := prefixJoins (splitOnChar d '/') ++ fs.dirs }

def dirExists (fs : FS) (d : String) : Bool :=
  d == "." || fs.dirs.contains d

/-- Go `os.Create`: truncating create.  It fails (returns `none`) when
the parent directory of the path does not exist. -/
def createFile (fs : FS) (p : String) : Option FS :=
  if dirExists fs (Filepath.Dir p) then
    some { fs with files := mapSet fs.files p "" }
  else none

/-- Writing the whole content to a freshly created file (`io.Copy` in
`md-downloader.go`, `WriteString` in `part_000`). -/
def writeAll (fs : FS) (p content : String) : FS :=
  { fs with files := mapSet fs.files p content }

/-- One entry of the decoded GitHub tree listing (the anonymous struct
inside `listMdFiles`). -/
structure Item where
  path : String
  mode : String := ""
  type : String
  sha : String
  size : Int := 0
  url : String := ""

/-- The change record (`History` in both sources): a Go map from
repository-relative path to last recorded content identifier. -/
structure History where
  Files : String → Option String

def History.empty : History := ⟨fun _ => none⟩

/-- The decision the tree loop takes for one candidate item, observable
in the code through its log message and side effects: `FETCH` = the
"Downloading file" branch, `SKIP_EXCLUDED` = the "Ignoring file" branch,
`SKIP_CURRENT` = the "Skipping file (already up to date)" branch. -/
inductive Decision where
  | FETCH
  | SKIP_EXCLUDED
  | SKIP_CURRENT
  deriving DecidableEq

/-- Helper for `splitOnceColon`: splits the character list at the first
colon; `none` when there is no colon. -/
def breakAtColon : List Char → Option (List Char × List Char)
  | [] => none
  | c :: rest =>
    if c = ':' then some ([], rest)
    else (breakAtColon rest).map (fun p => (c :: p.1, p.2))

/-- Go `strings.SplitN(s, ":", 2)`: one part when the entry has no
colon, otherwise exactly two parts, the second keeping any further
colons. -/
def splitOnceColon (s : String) : List String :=
  match breakAtColon s.data with
  | none => [s]
  | some p => [String.mk p.1, String.mk p.2]

/-- The repository key of a well-formed `--ignore` entry; `none` when
the entry has no colon (malformed). -/
def keyOf (s : String) : Option String :=
  match splitOnceColon s with
  | [k, _] => some k
  | _ => none

/-- One step of `parseIgnorePaths`: a malformed entry (no colon) is
logged and skipped; a well-formed one assigns `cfg.Ignore[repo] = paths`,
replacing any previous entry for the same repository. -/
def parseStep (acc : String → Option (List String)) (i : String) :
    String → Option (List String) :=
  match splitOnceColon i with
  | [repo, rest] => mapSetL acc repo (splitOnChar rest ',')
  | _ => acc

/-- `parseIgnorePaths` from both sources: builds `cfg.Ignore` from the
raw `--ignore` entries, in order. -/
def parseIgnorePaths (entries : List String) : String → Option (List String) :=
  entries.foldl parseStep (fun _ => none)

/-- `isIgnored` from both sources: exact string match of the path
against the configured exclusion paths of the repository. -/
def isIgnored (ign : String → Option (List String)) (repo fp : String) : Bool :=
  match ign repo with
  | some ignorePaths => ignorePaths.contains fp
  | none => false

/-- A parsed JSON value, as `encoding/json` sees the record file. -/
inductive Json where
  | str : String → Json
  | num : Int → Json
  | bool : Bool → Json
  | null : Json
  | arr : List Json → Json
  | obj : List (String × Json) → Json

/-- Decoding the `"files"` JSON object into a Go `map[string]string`,
following `encoding/json` semantics.  For every key the decoder zeroes
a fresh map element, decodes the value into it, and then inserts it
with `SetMapIndex` unconditionally.  A string value is stored as given
(a later duplicate key overwrites).  A `null` value leaves the element
at the zero string, so the key is inserted with `""` and no error.  Any
other value is an `UnmarshalTypeError` that is *saved* rather than
returned — decoding continues ("completes the unmarshaling as best it
can", per the `encoding/json` documentation), the key is still inserted
with the zero string `""`, and the saved error is reported at the
end. -/
def decodeFiles : List (String × Json) → (String → Option String) →
    (String → Option String) × Bool
  | [], m => (m, false)
  | (k, Json.str v) :: rest, m => decodeFiles rest (mapSet m k v)
  | (k, Json.null) :: rest, m => decodeFiles rest (mapSet m k "")
  | (k, _) :: rest, m => ((decodeFiles rest (mapSet m k "")).1, true)

/-- Decoding the top-level history object: only the `"files"` field is
unmarshalled (unknown fields are ignored without error).  A `"files"`
object is decoded into the current map, merging with whatever an
earlier duplicate `"files"` field already produced.  A JSON `null`
zeroes the map field to a nil map, wiping anything decoded so far and
raising no error; a nil Go map reads as empty (every lookup yields the
zero value), which is what the function-level model captures — the
panic a later *assignment* to a nil map would cause lies outside
`loadHistory` and is not modelled.  A non-object, non-null value for
`"files"` is a saved type error that leaves the field unchanged while
the remaining fields are still decoded. -/
def decodeHistoryObj : List (String × Json) → History → History × Bool
  | [], h => (h, false)
  | ("files", Json.obj fs) :: rest, h =>
    let p := decodeFiles fs h.Files
    let r := decodeHistoryObj rest ⟨p.1⟩
    (r.1, p.2 || r.2)
  | ("files", Json.null) :: rest, _h => decodeHistoryObj rest ⟨fun _ => none⟩
  | ("files", _) :: rest, h => ((decodeHistoryObj rest h).1, true)
  | (_, _) :: rest, h => decodeHistoryObj rest h

/-- Unmarshalling one JSON value into a `History` (Go `Decode` into
`&history`): a JSON null leaves the target untouched without error; a
non-object value is a type error that assigns nothing. -/
def decodeHistory (j : Json) (h : History) : History × Bool :=
  match j with
  | Json.obj fields => decodeHistoryObj fields h
  | Json.null => (h, false)
  | _ => (h, true)

/-- `loadHistory` from both sources.  The argument models the record
file: `none` = `os.Open` failed (e.g. missing file, expected on first
run); `some none` = the content is not a syntactically valid JSON value,
so `Decode` fails without assigning anything; `some (some j)` = the
content parses as the JSON value `j`, which is unmarshalled into the
freshly initialised empty `History`.  The boolean is true when `Decode`
returned an error (the "Failed to parse history file" warning).  In
every case a record is returned; the function never fails the run. -/
def loadHistory (file : Option (Option Json)) : History × Bool :=
  match file with
  | none => (History.empty, false)
  | some none => (History.empty, true)
  | some (some j) => decodeHistory j History.empty

/-- `saveHistory` from both sources: `os.Create` truncates the record
file and the encoder writes the complete in-memory record (the whole
`Files` map, not a diff), modelled by returning it as the new file
state. -/
def saveHistory (history : History) : Option History :=
  some history

/-- The candidate filter of the tree loop in both sources:
`item.Type == "blob" && filepath.Ext(item.Path) == ".md"`. -/
def isMdBlob (item : Item) : Bool :=
  item.type == "blob" && Filepath.Ext item.path == ".md"

/-- Prepends the decision taken for one item (tagged with its path) to
the decisions of the remaining items; non-candidate items produce no
decision. -/
def appendDecision (p : String) (d : Option Decision)
    (ds : List (String × Decision)) : List (String × Decision) :=
  match d with
  | none => ds
  | some dd => (p, dd) :: ds

namespace MdDownloader

/-- `shouldDownload` from `src/md-downloader.go` (lines 120–126): no
sentinel check — a present entry is compared against the current sha
directly. -/
def shouldDownload (filePath sha : String) (history : History) : Bool :=
  match history.Files filePath with
  | none => true
  | some v => v != sha

/-- `downloadFile` from `src/md-downloader.go` (lines 139–170), with the
raw-content HTTP GET modelled by the `fetched` input (`none` = request
failed).  Note that the only directory ever created is
`Join output (Base repo)`; parent directories of a nested `filePath`
are not created, so `os.Create` fails for them. -/
def downloadFile (output repo filePath : String) (fetched : Option String)
    (fs : FS) : FS :=
  let fileDir := Filepath.Join output (Filepath.Base repo)
  let fs1 := mkdirAll fs fileDir
  let full := Filepath.Join fileDir filePath
  match fetched with
  | none => fs1
  | some content =>
    match createFile fs1 full with
    | none => fs1
    | some fs2 => writeAll fs2 full content

/-- One iteration of the tree loop of `listMdFiles` in
`src/md-downloader.go` (lines 100–115).  The history entry is set to the
item's sha whenever the download branch is taken, regardless of the
download's outcome (`downloadFile` reports failures only by logging). -/
def processItem (ign : String → Option (List String)) (repo output : String)
    (fetched : String → Option String) (item : Item) (h : History) (fs : FS) :
    Option Decision × History × FS :=
  if isMdBlob item then
    if shouldDownload item.path item.sha h then
      if isIgnored ign repo item.path then
        (some Decision.SKIP_EXCLUDED, h, fs)
      else
        (some Decision.FETCH, ⟨mapSet h.Files item.path item.sha⟩,
          downloadFile output repo item.path (fetched item.path) fs)
    else
      (some Decision.SKIP_CURRENT, h, fs)
  else
    (none, h, fs)

/-- The tree loop of `listMdFiles` in `src/md-downloader.go`, threading
the in-memory history and the filesystem and reporting the per-file
decisions in listing order. -/
def runTree (ign : String → Option (List String)) (repo output : String)
    (fetched : String → Option String) :
    List Item → History → FS → List (String × Decision) × History × FS
  | [], h, fs => ([], h, fs)
  | item :: rest, h, fs =>
    let p := processItem ign repo output fetched item h fs
    let r := runTree ign repo output fetched rest p.2.1 p.2.2
    (appendDecision item.path p.1 r.1, r.2.1, r.2.2)

/-- `listMdFiles` from `src/md-downloader.go` (lines 66–118).  `listing`
models the GitHub tree request: `none` when the request fails or the
JSON response cannot be decoded — both early-return before the history
is even loaded; `some items` is the decoded tree.  Returns the
decisions, the new record file state (`none` = `saveHistory` was never
called, the record file is untouched), and the filesystem. -/
def listMdFiles (ign : String → Option (List String)) (repo output : String)
    (fetched : String → Option String) (listing : Option (List Item))
    (histFile : Option (Option Json)) (fs : FS) :
    List (String × Decision) × Option History × FS :=
  match listing with
  | none => ([], none, fs)
  | some items =>
    let h0 := (loadHistory histFile).1
    let r := runTree ign repo output fetched items h0 fs
    (r.1, saveHistory r.2.1, r.2.2)

end MdDownloader

namespace PartZero

/-- `shouldDownload` from `src/unnamed/part_000` (lines 187–193): a
recorded "ERROR" sentinel always triggers a re-download. -/
def shouldDownload (filePath sha : String) (history : History) : Bool :=
  match history.Files filePath with
  | none => true
  | some lastSha => if lastSha == "ERROR" then true else lastSha != sha

/-- `saveFile` from `src/unnamed/part_000` (lines 161–185).  As in
`downloadFile`, the only directory created is `Join output (Base repo)`,
so `os.Create` fails for a nested `filePath` whose parent directory
does not already exist. -/
def saveFile (output repo filePath content : String) (fs : FS) : FS :=
  let fileDir := Filepath.Join output (Filepath.Base repo)
  let fs1 := mkdirAll fs fileDir
  let full := Filepath.Join fileDir filePath
  match createFile fs1 full with
  | none => fs1
  | some fs2 => writeAll fs2 full content

/-- Outcome of the per-file content fetch of `part_000`: request error,
JSON decode error, base64 decode error, or the decoded content. -/
inductive FetchResult where
  | reqError
  | jsonError
  | b64Error
  | ok : String → FetchResult

/-- One iteration of the tree loop of `src/unnamed/part_000` (lines
116–156): fetch/decode failures set the "ERROR" sentinel and continue
with the next file; after a successful fetch the history entry is set
to the item's sha even when `saveFile` fails (it reports failures only
by logging). -/
def processItem (ign : String → Option (List String)) (repo output : String)
    (fetch : String → FetchResult) (item : Item) (h : History) (fs : FS) :
    Option Decision × History × FS :=
  if isMdBlob item then
    if shouldDownload item.path item.sha h then
      if isIgnored ign repo item.path then
        (some Decision.SKIP_EXCLUDED, h, fs)
      else
        match fetch item.path with
        | FetchResult.reqError =>
          (some Decision.FETCH, ⟨mapSet h.Files item.path "ERROR"⟩, fs)
        | FetchResult.jsonError =>
          (some Decision.FETCH, ⟨mapSet h.Files item.path "ERROR"⟩, fs)
        | FetchResult.b64Error =>
          (some Decision.FETCH, ⟨mapSet h.Files item.path "ERROR"⟩, fs)
        | FetchResult.ok content =>
          (some Decision.FETCH, ⟨mapSet h.Files item.path item.sha⟩,
            saveFile output repo item.path content fs)
    else
      (some Decision.SKIP_CURRENT, h, fs)
  else
    (none, h, fs)

/-- The tree loop of `listMdFiles` in `src/unnamed/part_000`. -/
def runTree (ign : String → Option (List String)) (repo output : String)
    (fetch : String → FetchResult) :
    List Item → History → FS → List (String × Decision) × History × FS
  | [], h, fs => ([], h, fs)
  | item :: rest, h, fs =>
    let p := processItem ign repo output fetch item h fs
    let r := runTree ign repo output fetch rest p.2.1 p.2.2
    (appendDecision item.path p.1 r.1, r.2.1, r.2.2)

/-- `listMdFiles` from `src/unnamed/part_000` (lines 74–159): the
request-error, body-read-error and JSON-decode-error paths all return
before the history is loaded (`listing = none`). -/
def listMdFiles (ign : String → Option (List String)) (repo output : String)
    (fetch : String → FetchResult) (listing : Option (List Item))
    (histFile : Option (Option Json)) (fs : FS) :
    List (String × Decision) × Option History × FS :=
  match listing with
  | none => ([], none, fs)
  | some items =>
    let h0 := (loadHistory histFile).1
    let r := runTree ign repo output fetch items h0 fs
    (r.1, saveHistory r.2.1, r.2.2)

end PartZero

/-! Helper lemmas about the embedding, shared by the claim theorems. -/

theorem mapSet_self (m : String → Option String) (k v : String) :
    mapSet m k v k = some v := by
  simp [mapSet]

theorem mapSet_ne (m : String → Option String) (k v q : String) (hq : q ≠ k) :
    mapSet m k v q = m q := by
  simp [mapSet, hq]

theorem md_shouldDownload_eq_false_iff (p s : String) (h : History) :
    MdDownloader.shouldDownload p s h = false ↔ h.Files p = some s := by
  unfold MdDownloader.shouldDownload
  cases hv : h.Files p with
  | none => simp
  | some v => simp [bne_eq_false_iff_eq]

theorem md_processItem_skip (ign : String → Option (List String)) (repo out : String)
    (f : String → Option String) (item : Item) (h : History) (fs : FS)
    (hmd : isMdBlob item = false) :
    MdDownloader.processItem ign repo out f item h fs = (none, h, fs) := by
  simp [MdDownloader.processItem, hmd]

theorem md_processItem_current (ign : String → Option (List String)) (repo out : String)
    (f : String → Option String) (item : Item) (h : History) (fs : FS)
    (hmd : isMdBlob item = true)
    (hsd : MdDownloader.shouldDownload item.path item.sha h = false) :
    MdDownloader.processItem ign repo out f item h fs =
      (some Decision.SKIP_CURRENT, h, fs) := by
  simp [MdDownloader.processItem, hmd, hsd]

theorem md_processItem_excluded (ign : String → Option (List String)) (repo out : String)
    (f : String → Option String) (item : Item) (h : History) (fs : FS)
    (hmd : isMdBlob item = true)
    (hsd : MdDownloader.shouldDownload item.path item.sha h = true)
    (hig : isIgnored ign repo item.path = true) :
    MdDownloader.processItem ign repo out f item h fs =
      (some Decision.SKIP_EXCLUDED, h, fs) := by
  simp [MdDownloader.processItem, hmd, hsd, hig]

theorem md_processItem_fetch (ign : String → Option (List String)) (repo out : String)
    (f : String → Option String) (item : Item) (h : History) (fs : FS)
    (hmd : isMdBlob item = true)
    (hsd : MdDownloader.shouldDownload item.path item.sha h = true)
    (hig : isIgnored ign repo item.path = false) :
    MdDownloader.processItem ign repo out f item h fs =
      (some Decision.FETCH, ⟨mapSet h.Files item.path item.sha⟩,
        MdDownloader.downloadFile out repo item.path (f item.path) fs) := by
  simp [MdDownloader.processItem, hmd, hsd, hig]

theorem md_runTree_cons (ign : String → Option (List String)) (repo out : String)
    (f : String → Option String) (item : Item) (rest : List Item) (h : History) (fs : FS) :
    MdDownloader.runTree ign repo out f (item :: rest) h fs =
      (appendDecision item.path
          (MdDownloader.processItem ign repo out f item h fs).1
          (MdDownloader.runTree ign repo out f rest
            (MdDownloader.processItem ign repo out f item h fs).2.1
            (MdDownloader.processItem ign repo out f item h fs).2.2).1,
        (MdDownloader.runTree ign repo out f rest
          (MdDownloader.processItem ign repo out f item h fs).2.1
          (MdDownloader.processItem ign repo out f item h fs).2.2).2.1,
        (MdDownloader.runTree ign repo out f rest
          (MdDownloader.processItem ign repo out f item h fs).2.1
          (MdDownloader.processItem ign repo out f item h fs).2.2).2.2) := rfl

theorem md_processItem_files_ne (ign : String → Option (List String)) (repo out : String)
    (f : String → Option String) (item : Item) (h : History) (fs : FS) (q : String)
    (hq : item.path ≠ q) :
    ((MdDownloader.processItem ign repo out f item h fs).2.1).Files q = h.Files q := by
  unfold MdDownloader.processItem
  cases hmd : isMdBlob item
  · simp
  · cases hsd : MdDownloader.shouldDownload item.path item.sha h
    · simp
    · cases hig : isIgnored ign repo item.path
      · simp [mapSet, Ne.symm hq]
      · simp

theorem md_processItem_files_ignored (ign : String → Option (List String)) (repo out : String)
    (f : String → Option String) (item : Item) (h : History) (fs : FS) (p : String)
    (hp : isIgnored ign repo p = true) :
    ((MdDownloader.processItem ign repo out f item h fs).2.1).Files p = h.Files p := by
  by_cases hip : item.path = p
  · unfold MdDownloader.processItem
    cases hmd : isMdBlob item
    · simp
    · cases hsd : MdDownloader.shouldDownload item.path item.sha h
      · simp
      · simp [hip, hp]
  · exact md_processItem_files_ne ign repo out f item h fs p hip

theorem md_runTree_frame (ign : String → Option (List String)) (repo out : String)
    (f : String → Option String) :
    ∀ (items : List Item) (h : History) (fs : FS) (q : String),
      (∀ i ∈ items, i.path ≠ q) →
      ((MdDownloader.runTree ign repo out f items h fs).2.1).Files q = h.Files q := by
  intro items
  induction items with
  | nil => intro h fs q _; rfl
  | cons x rest ih =>
    intro h fs q hq
    simp only [md_runTree_cons]
    rw [ih _ _ q (fun i hi => hq i (List.mem_cons_of_mem x hi))]
    exact md_processItem_files_ne ign repo out f x h fs q (hq x (List.mem_cons_self x rest))

theorem md_runTree_frame_ignored (ign : String → Option (List String)) (repo out : String)
    (f : String → Option String) (p : String) (hp : isIgnored ign repo p = true) :
    ∀ (items : List Item) (h : History) (fs : FS),
      ((MdDownloader.runTree ign repo out f items h fs).2.1).Files p = h.Files p := by
  intro items
  induction items with
  | nil => intro h fs; rfl
  | cons x rest ih =>
    intro h fs
    simp only [md_runTree_cons]
    rw [ih _ _]
    exact md_processItem_files_ignored ign repo out f x h fs p hp

theorem md_runTree_writes (ign : String → Option (List String)) (repo out : String)
    (f : String → Option String) :
    ∀ (items : List Item) (h : History) (fs : FS),
      (items.map Item.path).Nodup →
      ∀ i ∈ items, isMdBlob i = true → isIgnored ign repo i.path = false →
      ((MdDownloader.runTree ign repo out f items h fs).2.1).Files i.path = some i.sha := by
  intro items
  induction items with
  | nil => intro h fs _ i hi; exact absurd hi (List.not_mem_nil i)
  | cons x rest ih =>
    intro h fs hnd i hi hmd hig
    have hnd' : (rest.map Item.path).Nodup := (List.nodup_cons.mp hnd).2
    simp only [md_runTree_cons]
    rcases List.mem_cons.mp hi with rfl | hir
    · have hxr : ∀ j ∈ rest, j.path ≠ i.path := by
        intro j hj heq
        exact (List.nodup_cons.mp hnd).1 (heq ▸ List.mem_map_of_mem Item.path hj)
      cases hsd : MdDownloader.shouldDownload i.path i.sha h
      · rw [md_processItem_current ign repo out f i h fs hmd hsd]
        rw [md_runTree_frame ign repo out f rest h fs i.path hxr]
        exact (md_shouldDownload_eq_false_iff i.path i.sha h).mp hsd
      · rw [md_processItem_fetch ign repo out f i h fs hmd hsd hig]
        rw [md_runTree_frame ign repo out f rest _ _ i.path hxr]
        exact mapSet_self h.Files i.path i.sha
    · exact ih _ _ hnd' i hir hmd hig

theorem md_runTree_stable (ign : String → Option (List String)) (repo out : String)
    (f : String → Option String) :
    ∀ (items : List Item) (h : History) (fs : FS),
      (∀ i ∈ items, isMdBlob i = true → isIgnored ign repo i.path = false →
        h.Files i.path = some i.sha) →
      ∀ pd ∈ (MdDownloader.runTree ign repo out f items h fs).1,
        pd.2 = Decision.SKIP_CURRENT ∨
          (pd.2 = Decision.SKIP_EXCLUDED ∧ isIgnored ign repo pd.1 = true) := by
  intro items
  induction items with
  | nil => intro h fs _ pd hpd; exact absurd hpd (List.not_mem_nil pd)
  | cons x rest ih =>
    intro h fs hstab pd hpd
    have hstab' : ∀ i ∈ rest, isMdBlob i = true → isIgnored ign repo i.path = false →
        h.Files i.path = some i.sha :=
      fun i hi => hstab i (List.mem_cons_of_mem x hi)
    simp only [md_runTree_cons] at hpd
    cases hmd : isMdBlob x
    · rw [md_processItem_skip ign repo out f x h fs hmd] at hpd
      simp only [appendDecision] at hpd
      exact ih h fs hstab' pd hpd
    · cases hsd : MdDownloader.shouldDownload x.path x.sha h
      · rw [md_processItem_current ign repo out f x h fs hmd hsd] at hpd
        simp only [appendDecision] at hpd
        rcases List.mem_cons.mp hpd with rfl | hm
        · exact Or.inl rfl
        · exact ih h fs hstab' pd hm
      · cases hig : isIgnored ign repo x.path
        · have hfx := hstab x (List.mem_cons_self x rest) hmd hig
          have hfalse := (md_shouldDownload_eq_false_iff x.path x.sha h).mpr hfx
          rw [hsd] at hfalse
          exact Bool.noConfusion hfalse
        · rw [md_processItem_excluded ign repo out f x h fs hmd hsd hig] at hpd
          simp only [appendDecision] at hpd
          rcases List.mem_cons.mp hpd with rfl | hm
          · exact Or.inr ⟨rfl, hig⟩
          · exact ih h fs hstab' pd hm

theorem md_runTree_ignored_dec (ign : String → Option (List String)) (repo out : String)
    (f : String → Option String) (p : String) (hp : isIgnored ign repo p = true) :
    ∀ (items : List Item) (h : History) (fs : FS),
      ∀ pd ∈ (MdDownloader.runTree ign repo out f items h fs).1,
        pd.1 = p → pd.2 = Decision.SKIP_EXCLUDED ∨ pd.2 = Decision.SKIP_CURRENT := by
  intro items
  induction items with
  | nil => intro h fs pd hpd; exact absurd hpd (List.not_mem_nil pd)
  | cons x rest ih =>
    intro h fs pd hpd hpdp
    simp only [md_runTree_cons] at hpd
    cases hmd : isMdBlob x
    · rw [md_processItem_skip ign repo out f x h fs hmd] at hpd
      simp only [appendDecision] at hpd
      exact ih _ _ pd hpd hpdp
    · cases hsd : MdDownloader.shouldDownload x.path x.sha h
      · rw [md_processItem_current ign repo out f x h fs hmd hsd] at hpd
        simp only [appendDecision] at hpd
        rcases List.mem_cons.mp hpd with rfl | hm
        · exact Or.inr rfl
        · exact ih _ _ pd hm hpdp
      · cases hig : isIgnored ign repo x.path
        · rw [md_processItem_fetch ign repo out f x h fs hmd hsd hig] at hpd
          simp only [appendDecision] at hpd
          rcases List.mem_cons.mp hpd with rfl | hm
          · have hxp : x.path = p := hpdp
            rw [hxp] at hig
            rw [hig] at hp
            exact Bool.noConfusion hp
          · exact ih _ _ pd hm hpdp
        · rw [md_processItem_excluded ign repo out f x h fs hmd hsd hig] at hpd
          simp only [appendDecision] at hpd
          rcases List.mem_cons.mp hpd with rfl | hm
          · exact Or.inl rfl
          · exact ih _ _ pd hm hpdp

theorem parseStep_ne (acc : String → Option (List String)) (s r : String)
    (hk : keyOf s ≠ some r) :
    parseStep acc s r = acc r := by
  rcases hsp : splitOnceColon s with _ | ⟨k, _ | ⟨t, _ | ⟨u, tl⟩⟩⟩
  · simp [parseStep, hsp]
  · simp [parseStep, hsp]
  · have hkr : k ≠ r := fun hh => hk (by simp [keyOf, hsp, hh])
    simp [parseStep, hsp, mapSetL, Ne.symm hkr]
  · simp [parseStep, hsp]

theorem foldl_parseStep_ne (r : String) :
    ∀ (l : List String) (acc : String → Option (List String)),
      (∀ s ∈ l, keyOf s ≠ some r) →
      (List.foldl parseStep acc l) r = acc r := by
  intro l
  induction l with
  | nil => intro acc _; rfl
  | cons s ss ih =>
    intro acc hl
    rw [List.foldl_cons]
    rw [ih (parseStep acc s) (fun t ht => hl t (List.mem_cons_of_mem s ht))]
    exact parseStep_ne acc s r (hl s (List.mem_cons_self s ss))

/-! Claim theorems. -/

/-- Claim C1, counterexample: the decision engine of `src/md-downloader.go`
has no sentinel check, so for a record entry holding the sentinel "ERROR"
and a current remote identifier that literally equals "ERROR",
`shouldDownload` returns `false` (not FETCH) — the claim's "regardless of
the current remote content identifier" fails for that variant. -/
theorem shouldDownload_sentinel_collision :
    (⟨mapSet History.empty.Files "a.md" "ERROR"⟩ : History).Files "a.md" = some "ERROR" ∧
    MdDownloader.shouldDownload "a.md" "ERROR"
      ⟨mapSet History.empty.Files "a.md" "ERROR"⟩ = false :=
  ⟨by decide, by decide⟩

/-- Claim C1, amended: a path absent from the record always yields FETCH
in both implementations; a record value equal to the error sentinel
always yields FETCH in the decision engine of `src/unnamed/part_000`,
while the variant in `src/md-downloader.go` (which has no sentinel
check) yields FETCH in that case exactly when the current remote
identifier differs from the sentinel string itself. -/
theorem fetch_on_absent_or_error (fp sha : String) (h : History) :
    (h.Files fp = none →
      MdDownloader.shouldDownload fp sha h = true ∧
        PartZero.shouldDownload fp sha h = true) ∧
    (h.Files fp = some "ERROR" → PartZero.shouldDownload fp sha h = true) ∧
    (h.Files fp = some "ERROR" → sha ≠ "ERROR" →
      MdDownloader.shouldDownload fp sha h = true) := by
  refine ⟨fun hn => ?_, fun he => ?_, fun he hsha => ?_⟩
  · unfold MdDownloader.shouldDownload PartZero.shouldDownload
    rw [hn]
    exact ⟨rfl, rfl⟩
  · unfold PartZero.shouldDownload
    rw [he]
    simp
  · unfold MdDownloader.shouldDownload
    rw [he]
    simp [bne_iff_ne]
    exact Ne.symm hsha

/-- Witness for `fetch_on_absent_or_error` at concrete inputs. -/
theorem fetch_on_absent_or_error_witness :
    (History.empty.Files "a.md" = none ∧
      MdDownloader.shouldDownload "a.md" "s" History.empty = true ∧
      PartZero.shouldDownload "a.md" "s" History.empty = true) ∧
    ((⟨mapSet History.empty.Files "a.md" "ERROR"⟩ : History).Files "a.md" = some "ERROR" ∧
      PartZero.shouldDownload "a.md" "ERROR"
        ⟨mapSet History.empty.Files "a.md" "ERROR"⟩ = true) ∧
    (("s" : String) ≠ "ERROR" ∧
      MdDownloader.shouldDownload "a.md" "s"
        ⟨mapSet History.empty.Files "a.md" "ERROR"⟩ = true) :=
  ⟨⟨by decide, (fetch_on_absent_or_error "a.md" "s" History.empty).1 (by decide)⟩,
    ⟨by decide,
      (fetch_on_absent_or_error "a.md" "ERROR"
        ⟨mapSet History.empty.Files "a.md" "ERROR"⟩).2.1 (by decide)⟩,
    ⟨by decide,
      (fetch_on_absent_or_error "a.md" "s"
        ⟨mapSet History.empty.Files "a.md" "ERROR"⟩).2.2 (by decide) (by decide)⟩⟩

/-- Claim C2: code bug, evaluated at a failing input.  In the tree loop
of `src/unnamed/part_000`, a fetch error does set the "ERROR" sentinel
and the loop continues ("e.md" below), but a materialize failure does
not: for "docs/b.md" the fetch succeeds, `saveFile` fails (the parent
directory "out/r/docs" is never created, so `os.Create` fails and no
file is written), yet the record entry is set to the item's sha "s2",
not to the sentinel, because `saveFile` reports failures only by
logging and the caller records the sha unconditionally.  The loop still
continues to "c.md", which is fetched and written. -/
theorem materialize_failure_records_sha :
    (let R := PartZero.runTree (fun _ => none) "r" "out"
        (fun p => if p = "e.md" then PartZero.FetchResult.reqError
          else if p = "docs/b.md" then PartZero.FetchResult.ok "B"
          else PartZero.FetchResult.ok "C")
        ([{ path := "e.md", type := "blob", sha := "s1" },
          { path := "docs/b.md", type := "blob", sha := "s2" },
          { path := "c.md", type := "blob", sha := "s3" }] : List Item)
        History.empty FS.empty
     R.2.1.Files "e.md" = some "ERROR" ∧
       R.2.1.Files "docs/b.md" = some "s2" ∧
       R.2.2.files "out/r/docs/b.md" = none ∧
       R.2.1.Files "c.md" = some "s3" ∧
       R.2.2.files "out/r/c.md" = some "C" ∧
       R.1.length = 3) := by
  decide

/-- Claim C3, counterexample: the code checks `shouldDownload` before
`isIgnored`, so an excluded candidate whose record entry already equals
the current identifier takes the "already up to date" branch: the
decision is SKIP_CURRENT, not SKIP_EXCLUDED. -/
theorem excluded_current_skip_current :
    isIgnored (parseIgnorePaths ["r:a.md"]) "r" "a.md" = true ∧
    isMdBlob { path := "a.md", type := "blob", sha := "s" } = true ∧
    (MdDownloader.processItem (parseIgnorePaths ["r:a.md"]) "r" "docs" (fun _ => none)
        { path := "a.md", type := "blob", sha := "s" }
        ⟨mapSet History.empty.Files "a.md" "s"⟩ FS.empty).1 =
      some Decision.SKIP_CURRENT :=
  ⟨by decide, by decide, by decide⟩

/-- Claim C3, amended: staleness is checked first, so an excluded
candidate yields SKIP_EXCLUDED when `shouldDownload` is true and
SKIP_CURRENT when it is false; in every case an excluded path is never
the subject of a FETCH decision and its record entry is neither created
nor modified by the run. -/
theorem excluded_never_fetched (ign : String → Option (List String)) (repo out : String)
    (f : String → Option String) (items : List Item) (h : History) (fs : FS) (p : String)
    (hp : isIgnored ign repo p = true) :
    (∀ pd ∈ (MdDownloader.runTree ign repo out f items h fs).1,
        pd.1 = p → pd.2 = Decision.SKIP_EXCLUDED ∨ pd.2 = Decision.SKIP_CURRENT) ∧
    ((MdDownloader.runTree ign repo out f items h fs).2.1).Files p = h.Files p ∧
    (∀ item : Item, item.path = p → isMdBlob item = true →
      MdDownloader.processItem ign repo out f item h fs =
        (some (if MdDownloader.shouldDownload p item.sha h then Decision.SKIP_EXCLUDED
          else Decision.SKIP_CURRENT), h, fs)) := by
  refine ⟨fun pd hpd => md_runTree_ignored_dec ign repo out f p hp items h fs pd hpd,
    md_runTree_frame_ignored ign repo out f p hp items h fs, ?_⟩
  intro item hip hmd
  cases hsd : MdDownloader.shouldDownload p item.sha h
  · have hsd' : MdDownloader.shouldDownload item.path item.sha h = false := by
      rw [hip]; exact hsd
    rw [md_processItem_current ign repo out f item h fs hmd hsd']
    simp
  · have hsd' : MdDownloader.shouldDownload item.path item.sha h = true := by
      rw [hip]; exact hsd
    have hig : isIgnored ign repo item.path = true := by
      rw [hip]; exact hp
    rw [md_processItem_excluded ign repo out f item h fs hmd hsd' hig]
    simp

/-- Witness for `excluded_never_fetched` at concrete inputs. -/
theorem excluded_never_fetched_witness :
    isIgnored (parseIgnorePaths ["r:skip.md"]) "r" "skip.md" = true ∧
    ((MdDownloader.runTree (parseIgnorePaths ["r:skip.md"]) "r" "docs" (fun _ => some "c")
        ([{ path := "skip.md", type := "blob", sha := "s9" }] : List Item)
        History.empty FS.empty).2.1).Files "skip.md" = History.empty.Files "skip.md" :=
  ⟨by decide,
    (excluded_never_fetched (parseIgnorePaths ["r:skip.md"]) "r" "docs" (fun _ => some "c")
      [{ path := "skip.md", type := "blob", sha := "s9" }]
      History.empty FS.empty "skip.md" (by decide)).2.1⟩

/-- Claim C4: code bug, evaluated at a failing input.  The output path
is computed as `Join output (Base repoId) / path` (basename of the
repository, owner discarded) and an existing file at that path is
overwritten, but parent directories of a nested path are NOT created:
`os.MkdirAll` is called only on `Join output (Base repoId)`, so for
`docs/intro.md` in repository `owner/project` the `os.Create` of
`docs/project/docs/intro.md` fails (its parent `docs/project/docs`
does not exist) and nothing at all is written.  A top-level path such
as `README.md` is written, and overwrites an existing file. -/
theorem nested_path_not_materialized :
    Filepath.Base "owner/project" = "project" ∧
    (∀ q, (PartZero.saveFile "docs" "owner/project" "docs/intro.md" "hello"
      FS.empty).files q = none) ∧
    (MdDownloader.downloadFile "docs" "owner/project" "docs/intro.md" (some "hello")
      FS.empty).files "docs/project/docs/intro.md" = none ∧
    (PartZero.saveFile "docs" "owner/project" "README.md" "new"
        ⟨["docs", "docs/project"], mapSet (fun _ => none) "docs/project/README.md" "old"⟩).files
      "docs/project/README.md" = some "new" :=
  ⟨by decide, fun _ => rfl, by decide, by decide⟩

/-- Claim C5: idempotence of the sync pass of `src/md-downloader.go`.
Running the tree loop twice over the same listing (paths pairwise
distinct, as in a real git tree), with the second run starting from the
record produced by the first, yields no FETCH decision on the second
run: every candidate resolves to SKIP_CURRENT, or to SKIP_EXCLUDED for
a path excluded by the ignore configuration.  (In this variant the
record entry is set to the item's sha whenever a download is attempted,
so the conclusion holds for arbitrary fetch oracles `f1`, `f2`.) -/
theorem second_run_no_fetch (ign : String → Option (List String)) (repo out : String)
    (f1 f2 : String → Option String) (items : List Item) (h : History) (fs1 fs2 : FS)
    (hnd : (items.map Item.path).Nodup) :
    ∀ pd ∈ (MdDownloader.runTree ign repo out f2 items
        ((MdDownloader.runTree ign repo out f1 items h fs1).2.1) fs2).1,
      pd.2 ≠ Decision.FETCH ∧
        (pd.2 = Decision.SKIP_CURRENT ∨
          (pd.2 = Decision.SKIP_EXCLUDED ∧ isIgnored ign repo pd.1 = true)) := by
  intro pd hpd
  have hw := md_runTree_writes ign repo out f1 items h fs1 hnd
  have hs := md_runTree_stable ign repo out f2 items _ fs2 hw pd hpd
  refine ⟨?_, hs⟩
  rcases hs with h1 | ⟨h2, _⟩
  · rw [h1]; decide
  · rw [h2]; decide

/-- Witness for `second_run_no_fetch` at concrete inputs. -/
theorem second_run_no_fetch_witness :
    (([{ path := "a.md", type := "blob", sha := "s1" },
        { path := "skip.md", type := "blob", sha := "s2" },
        { path := "x.txt", type := "blob", sha := "s3" }] : List Item).map Item.path).Nodup ∧
    ∀ pd ∈ (MdDownloader.runTree (parseIgnorePaths ["r:skip.md"]) "r" "docs"
        (fun _ => some "c2")
        ([{ path := "a.md", type := "blob", sha := "s1" },
          { path := "skip.md", type := "blob", sha := "s2" },
          { path := "x.txt", type := "blob", sha := "s3" }] : List Item)
        ((MdDownloader.runTree (parseIgnorePaths ["r:skip.md"]) "r" "docs"
          (fun _ => some "c1")
          ([{ path := "a.md", type := "blob", sha := "s1" },
            { path := "skip.md", type := "blob", sha := "s2" },
            { path := "x.txt", type := "blob", sha := "s3" }] : List Item)
          History.empty FS.empty).2.1) FS.empty).1,
      pd.2 ≠ Decision.FETCH ∧
        (pd.2 = Decision.SKIP_CURRENT ∨
          (pd.2 = Decision.SKIP_EXCLUDED ∧
            isIgnored (parseIgnorePaths ["r:skip.md"]) "r" pd.1 = true)) :=
  ⟨by decide,
    second_run_no_fetch (parseIgnorePaths ["r:skip.md"]) "r" "docs"
      (fun _ => some "c1") (fun _ => some "c2")
      [{ path := "a.md", type := "blob", sha := "s1" },
        { path := "skip.md", type := "blob", sha := "s2" },
        { path := "x.txt", type := "blob", sha := "s3" }]
      History.empty FS.empty FS.empty (by decide)⟩

/-- Claim C6: a failed or unparseable tree listing aborts the whole
repository: no tree entries are considered (no decisions), the record
file is neither modified nor saved (`saveHistory` is never reached —
the result's record-file component is `none`), and the filesystem is
untouched.  This holds for both variants. -/
theorem listing_failure_aborts_repo (ign : String → Option (List String))
    (repo out : String) (f : String → Option String)
    (fz : String → PartZero.FetchResult)
    (histFile : Option (Option Json)) (fs : FS) :
    MdDownloader.listMdFiles ign repo out f none histFile fs = ([], none, fs) ∧
    PartZero.listMdFiles ign repo out fz none histFile fs = ([], none, fs) :=
  ⟨rfl, rfl⟩

/-- Claim C7: change detection.  For a path present in the record with
a non-sentinel identifier `A`, both decision engines return FETCH
exactly when the current identifier `B` differs from `A`; and when
`B = A` the loop takes the SKIP_CURRENT branch, leaving the record and
the filesystem untouched. -/
theorem change_detection (fp A B : String) (h : History)
    (hA : h.Files fp = some A) (hs : A ≠ "ERROR") :
    (MdDownloader.shouldDownload fp B h = true ↔ B ≠ A) ∧
    (PartZero.shouldDownload fp B h = true ↔ B ≠ A) ∧
    (∀ (ign : String → Option (List String)) (repo out : String)
        (f : String → Option String) (item : Item) (fs : FS),
      item.path = fp → item.sha = B → isMdBlob item = true → B = A →
      MdDownloader.processItem ign repo out f item h fs =
        (some Decision.SKIP_CURRENT, h, fs)) := by
  refine ⟨?_, ?_, ?_⟩
  · unfold MdDownloader.shouldDownload
    rw [hA]
    simp [bne_iff_ne, ne_comm]
  · unfold PartZero.shouldDownload
    rw [hA]
    simp [hs, bne_iff_ne, ne_comm]
  · intro ign repo out f item fs hip hisha hmd hBA
    have hsd : MdDownloader.shouldDownload item.path item.sha h = false := by
      rw [hip, hisha, hBA]
      unfold MdDownloader.shouldDownload
      rw [hA]
      simp
    exact md_processItem_current ign repo out f item h fs hmd hsd

/-- Witness for `change_detection` at concrete inputs. -/
theorem change_detection_witness :
    ((⟨mapSet History.empty.Files "a.md" "s1"⟩ : History).Files "a.md" = some "s1" ∧
      ("s1" : String) ≠ "ERROR") ∧
    (MdDownloader.shouldDownload "a.md" "s2"
        ⟨mapSet History.empty.Files "a.md" "s1"⟩ = true ↔ ("s2" : String) ≠ "s1") :=
  ⟨⟨by decide, by decide⟩,
    (change_detection "a.md" "s1" "s2" ⟨mapSet History.empty.Files "a.md" "s1"⟩
      (by decide) (by decide)).1⟩

/-- Claim C8: `saveHistory` persists the complete record (the whole
final map, not a diff), and any path not among the run's tree entries —
including a path deleted upstream — retains its prior record value
unchanged: the run never prunes entries. -/
theorem save_retains_unseen_entries (ign : String → Option (List String))
    (repo out : String) (f : String → Option String) (items : List Item)
    (h : History) (fs : FS) (q : String)
    (hq : ∀ i ∈ items, i.path ≠ q) :
    saveHistory ((MdDownloader.runTree ign repo out f items h fs).2.1) =
      some ((MdDownloader.runTree ign repo out f items h fs).2.1) ∧
    ((MdDownloader.runTree ign repo out f items h fs).2.1).Files q = h.Files q :=
  ⟨rfl, md_runTree_frame ign repo out f items h fs q hq⟩

/-- Witness for `save_retains_unseen_entries` at concrete inputs. -/
theorem save_retains_unseen_entries_witness :
    (∀ i ∈ ([{ path := "a.md", type := "blob", sha := "s1" }] : List Item),
      i.path ≠ "gone.md") ∧
    ((MdDownloader.runTree (fun _ => none) "r" "docs" (fun _ => some "c")
        ([{ path := "a.md", type := "blob", sha := "s1" }] : List Item)
        ⟨mapSet History.empty.Files "gone.md" "old"⟩ FS.empty).2.1).Files "gone.md" =
      (⟨mapSet History.empty.Files "gone.md" "old"⟩ : History).Files "gone.md" :=
  ⟨by decide,
    (save_retains_unseen_entries (fun _ => none) "r" "docs" (fun _ => some "c")
      [{ path := "a.md", type := "blob", sha := "s1" }]
      ⟨mapSet History.empty.Files "gone.md" "old"⟩ FS.empty "gone.md" (by decide)).2⟩

/-- Claim C9, counterexample: `loadHistory` does not return an empty
record on every parse failure.  For a record file holding valid JSON
whose `files` object mixes a well-typed entry with an ill-typed one,
Go's `encoding/json` saves the type error, keeps decoding, and returns
the saved error at the end; `loadHistory` logs the parse warning but
returns the populated record — the well-typed entry is present, not
zero entries. -/
theorem load_partial_parse_nonempty :
    (loadHistory (some (some (Json.obj [("files",
        Json.obj [("a", Json.str "b"), ("c", Json.num 5)])])))).2 = true ∧
    (loadHistory (some (some (Json.obj [("files",
        Json.obj [("a", Json.str "b"), ("c", Json.num 5)])])))).1.Files "a" = some "b" :=
  ⟨by decide, by decide⟩

/-- Claim C9, amended: `loadHistory` never fails the run.  It returns a
record with zero entries when the file is missing (open failure) and
when the content is not decodable as a JSON value (syntax failure,
where `Decode` assigns nothing); but when the content parses as JSON
and some entries are ill-typed, the decoder saves the type error,
inserts those keys with the zero string `""`, and keeps the well-typed
entries — so the returned record can be non-empty alongside the parse
warning. -/
theorem load_failure_empty_or_partial :
    (∀ q, (loadHistory none).1.Files q = none) ∧
    (∀ q, (loadHistory (some none)).1.Files q = none) ∧
    ((loadHistory (some (some (Json.obj [("files",
        Json.obj [("a", Json.str "b"), ("c", Json.num 5)])])))).2 = true ∧
      (loadHistory (some (some (Json.obj [("files",
        Json.obj [("a", Json.str "b"), ("c", Json.num 5)])])))).1.Files "a" = some "b" ∧
      (loadHistory (some (some (Json.obj [("files",
        Json.obj [("a", Json.str "b"), ("c", Json.num 5)])])))).1.Files "c" = some "") :=
  ⟨fun _ => rfl, fun _ => rfl, by decide, by decide, by decide⟩

/-- Claim C10: when two well-formed `--ignore` entries share the same
repository key, the later entry's path list replaces the earlier one
entirely — after parsing, the configuration maps the repository to
exactly the comma-split path list of the last well-formed entry with
that key. -/
theorem later_ignore_entry_replaces (l1 l2 : List String) (e r rest : String)
    (h1 : splitOnceColon e = [r, rest])
    (h2 : ∀ s ∈ l2, keyOf s ≠ some r) :
    parseIgnorePaths (l1 ++ e :: l2) r = some (splitOnChar rest ',') := by
  unfold parseIgnorePaths
  rw [List.foldl_append, List.foldl_cons]
  rw [foldl_parseStep_ne r l2 _ h2]
  simp [parseStep, h1, mapSetL]

/-- Witness for `later_ignore_entry_replaces` at concrete inputs: the
earlier entry `r:a,b` is wholly replaced by the later entry `r:c`, and
a trailing malformed entry does not disturb it. -/
theorem later_ignore_entry_replaces_witness :
    (splitOnceColon "r:c" = ["r", "c"] ∧ ∀ s ∈ ["zzz"], keyOf s ≠ some "r") ∧
    parseIgnorePaths (["r:a,b"] ++ "r:c" :: ["zzz"]) "r" = some (splitOnChar "c" ',') :=
  ⟨⟨by decide, by decide⟩,
    later_ignore_entry_replaces ["r:a,b"] ["zzz"] "r:c" "r" "c" (by decide) (by decide)⟩

end MdSync
